import Mathlib

/-!
# Verification of the splitwiser settlement core

Shallow embedding of `backend/app/expenses/service.py` (class `ExpenseService`):
settlement-record creation, the "normal" pairwise-netting algorithm, the
"advanced" greedy minimum-transaction optimizer, the cached-balance layer and
the cross-group friends-balance aggregation.

Monetary amounts are modelled as exact rationals (`ℚ`); Python floats are
treated as exact decimal values, which is faithful for all the concrete inputs
appearing below.  Python `dict` / `collections.defaultdict` objects are
modelled as insertion-ordered association lists (`List (String × _)`), with
`defaultdict.__getitem__` inserting the default value on a missing key exactly
as CPython does, and with CPython's "dictionary changed size during iteration"
`RuntimeError` modelled explicitly where the source iterates a dict that its
loop body can grow.
-/

namespace Splitwiser

/-- The uniform negligibility threshold `0.01` used throughout the subsystem. -/
def eps : ℚ := 1 / 100

/-- Python's `round(x, 2)`.  (CPython uses banker's rounding at exact half-cent
ties; `round` in Mathlib rounds half away from zero there.  No value in this
development ever sits on a half-cent tie, and on exact multiples of `0.01` both
agree and are the identity.) -/
def round2 (q : ℚ) : ℚ := (round (q * 100) : ℤ) / 100

/-- A persisted settlement record (collection `settlements`).  `payerId` is the
debtor, `payeeId` the creditor.  The `payerName`/`payeeName`, `currency`,
`description` and timestamp fields of the Mongo document are display-only and
are omitted; the netting algorithms read only `payerId`, `payeeId`, `amount`
(and the store is queried by `groupId`). -/
structure SettlementRecord where
  expenseId : Option String
  groupId : String
  payerId : String
  payeeId : String
  amount : ℚ
  status : String
  deriving DecidableEq, Repr

/-- Ephemeral optimizer output (`OptimizedSettlement` in
`app/expenses/schemas`): `fromUserId` (debtor) pays `toUserId` (creditor).
The `fromUserName`/`toUserName` display fields are omitted. -/
structure OptimizedSettlement where
  fromUserId : String
  toUserId : String
  amount : ℚ
  deriving DecidableEq, Repr

/-! ## Ordered association lists modelling Python dicts -/

/-- Plain dict lookup (no default insertion). -/
def alookup {α : Type} : List (String × α) → String → Option α
  | [], _ => none
  | (k, v) :: rest, key => if k = key then some v else alookup rest key

/-- `d[k] = f(d[k])` on a `defaultdict` with default `dfl`: update the value in
place when `k` is present, otherwise append `(k, f dfl)` at the end (CPython
dicts preserve insertion order, new keys go last). -/
def updD {α : Type} (dfl : α) (f : α → α) : List (String × α) → String → List (String × α)
  | [], k => [(k, f dfl)]
  | (k', v) :: rest, k =>
      if k' = k then (k', f v) :: rest else (k', v) :: updD dfl f rest k

/-- Keys of an association list, in insertion order. -/
def keysOf {α : Type} (m : List (String × α)) : List String := m.map Prod.fst

/-- Sum of the values of a `String × ℚ` association list. -/
def sumValues (m : List (String × ℚ)) : ℚ := (m.map Prod.snd).sum

/-! ## The "normal" pairwise-netting algorithm
(`_calculate_normal_settlements`, service.py lines 582–638)

```python
net_balances = defaultdict(lambda: defaultdict(float))
for settlement in settlements:
    net_balances[payer][payee] += amount
optimized = []
for payer in net_balances:
    for payee in net_balances[payer]:
        payer_owes_payee = net_balances[payer][payee]
        payee_owes_payer = net_balances[payee][payer]
        net_amount = payer_owes_payee - payee_owes_payer
        if net_amount > 0.01: optimized.append(payer → payee, round(net,2))
        elif net_amount < -0.01: optimized.append(payee → payer, round(-net,2))
return optimized
```

The read `net_balances[payee][payer]` is a `defaultdict` access: when `payee`
is not an outer key it inserts `payee` into the dict being iterated by the
outer `for`, and CPython's dict iterator then raises
`RuntimeError: dictionary changed size during iteration` at its next step.
When `payee` is an outer key but `payer` is missing from its inner dict, a
`0.0` entry is appended to that inner dict (raising only if it is the inner
dict currently being iterated, i.e. `payee == payer`).  The embedding models
the live dict state and both failure modes. -/

/-- `net_balances[payer][payee] += amount` (both levels defaultdict). -/
def outerAdd (M : List (String × List (String × ℚ))) (payer payee : String) (v : ℚ) :
    List (String × List (String × ℚ)) :=
  updD [] (fun inn => updD 0 (· + v) inn payee) M payer

/-- Accumulation phase: build `net_balances` from the group's records. -/
def buildNetBalances (records : List SettlementRecord) :
    List (String × List (String × ℚ)) :=
  records.foldl (fun M r => outerAdd M r.payerId r.payeeId r.amount) []

/-- Evaluate `net_balances[payee][payer]` with defaultdict semantics.
Returns `(value, updated map, outer dict grew, inner dict of payee grew)`. -/
def ddRead (M : List (String × List (String × ℚ))) (payee payer : String) :
    ℚ × List (String × List (String × ℚ)) × Bool × Bool :=
  match alookup M payee with
  | none => (0, M ++ [(payee, [(payer, 0)])], true, true)
  | some inner =>
    match alookup inner payer with
    | some v => (v, M, false, false)
    | none => (0, updD [] (fun _ => inner ++ [(payer, 0)]) M payee, false, true)

/-- Body of the innermost loop for the ordered pair `(payer, payee)`:
the two reads, the net computation and the conditional emission.  Returns
`(emissions, updated map, outer grew, the inner dict being iterated grew)`. -/
def pairBody (M : List (String × List (String × ℚ))) (payer payee : String) :
    List OptimizedSettlement × List (String × List (String × ℚ)) × Bool × Bool :=
  let payerOwesPayee := (alookup ((alookup M payer).getD []) payee).getD 0
  match ddRead M payee payer with
  | (payeeOwesPayer, M', outerGrew, innerGrew) =>
    let net := payerOwesPayee - payeeOwesPayer
    let ems :=
      if eps < net then [⟨payer, payee, round2 net⟩]
      else if net < -eps then [⟨payee, payer, round2 (-net)⟩]
      else []
    (ems, M', outerGrew, innerGrew && (payee == payer))

/-- Inner loop `for payee in net_balances[payer]` over the snapshot of payees.
Returns `(emissions, map, outer grew at some point, RuntimeError raised)`:
the inner dict iterator checks its dict's size before each step, so growth of
`net_balances[payer]` inside a body aborts the loop there. -/
def innerLoop (payer : String) :
    List String → List (String × List (String × ℚ)) → Bool →
    List OptimizedSettlement × List (String × List (String × ℚ)) × Bool × Bool
  | [], M, og => ([], M, og, false)
  | payee :: rest, M, og =>
    match pairBody M payer payee with
    | (ems, M', outerGrew, innerGrew) =>
      if innerGrew then (ems, M', og || outerGrew, true)
      else
        match innerLoop payer rest M' (og || outerGrew) with
        | (ems', M'', og', err) => (ems ++ ems', M'', og', err)

/-- Outer loop `for payer in net_balances`.  The outer dict iterator compares
sizes at each step, so growth during a payer's inner loop raises at the next
outer step — after that inner loop has run to completion. -/
def outerLoop :
    List String → List (String × List (String × ℚ)) →
    List OptimizedSettlement × List (String × List (String × ℚ)) × Bool
  | [], M => ([], M, false)
  | payer :: rest, M =>
    let innerKeys := keysOf ((alookup M payer).getD [])
    match innerLoop payer innerKeys M false with
    | (ems, M', og, err) =>
      if err then (ems, M', true)
      else if og then (ems, M', true)
      else
        match outerLoop rest M' with
        | (ems', M'', err') => (ems ++ ems', M'', err')

/-- `_calculate_normal_settlements` on the group's record set.  Returns
`Except.error` when CPython would raise
`RuntimeError: dictionary changed size during iteration`. -/
def calculateNormalSettlements (records : List SettlementRecord) :
    Except String (List OptimizedSettlement) :=
  let M := buildNetBalances records
  match outerLoop (keysOf M) M with
  | (ems, _, err) =>
    if err then .error "RuntimeError: dictionary changed size during iteration"
    else .ok ems

/-! ## The "advanced" minimum-transaction optimizer
(`_calculate_advanced_settlements`, service.py lines 640–719) -/

/-- `user_balances[payer] += amount; user_balances[payee] -= amount`
over every record of the group (`user_balances = defaultdict(float)`).
Positive balance = net debtor, negative = net creditor. -/
def buildUserBalances (records : List SettlementRecord) : List (String × ℚ) :=
  records.foldl
    (fun m r => updD 0 (· + (-r.amount)) (updD 0 (· + r.amount) m r.payerId) r.payeeId) []

/-- `debtors = [[u, b] for u, b in user_balances.items() if b > 0.01]`. -/
def debtorsOf (balances : List (String × ℚ)) : List (String × ℚ) :=
  balances.filterMap (fun p => if eps < p.2 then some p else none)

/-- `creditors = [[u, -b] for u, b in user_balances.items() if b < -0.01]`. -/
def creditorsOf (balances : List (String × ℚ)) : List (String × ℚ) :=
  balances.filterMap (fun p => if p.2 < -eps then some (p.1, -p.2) else none)

/-- One step of the stable descending insertion used to model
`list.sort(key=lambda x: x[1], reverse=True)` (CPython's sort is stable:
elements with equal keys keep their original relative order, so a stable
descending sort determines the list uniquely). -/
def insertDesc (x : String × ℚ) : List (String × ℚ) → List (String × ℚ)
  | [] => [x]
  | y :: rest => if x.2 < y.2 ∨ x.2 = y.2 then y :: insertDesc x rest else x :: y :: rest

/-- Stable sort by amount, descending (`xs.sort(key=lambda x: x[1], reverse=True)`). -/
def sortDesc : List (String × ℚ) → List (String × ℚ)
  | [] => []
  | x :: rest => insertDesc x (sortDesc rest)

/-- The two-pointer greedy sweep (service.py lines 686–719):

```python
while i < len(debtors) and j < len(creditors):
    settlement_amount = min(debt_amount, credit_amount)
    if settlement_amount > 0.01: optimized.append(debtor → creditor, round(amt,2))
    debtors[i][1] -= settlement_amount
    creditors[j][1] -= settlement_amount
    if debtors[i][1] <= 0.01: i += 1
    if creditors[j][1] <= 0.01: j += 1
```

Advancing `i` (resp. `j`) is modelled by dropping the list head.  Because the
settled amount is `min` of the two, at least one remainder is exactly
`0 ≤ 0.01`, so when the debtor side does not advance the creditor side always
does (`sweep_neither_advances_impossible` below): the `else` branch advances
only the creditor, exactly as every reachable Python iteration does. -/
def sweep : List (String × ℚ) → List (String × ℚ) → List OptimizedSettlement
  | [], _ => []
  | _ :: _, [] => []
  | (d, da) :: ds, (c, ca) :: cs =>
    let s := min da ca
    let ems := if eps < s then [⟨d, c, round2 s⟩] else []
    if da - s ≤ eps then
      if ca - s ≤ eps then ems ++ sweep ds cs
      else ems ++ sweep ds ((c, ca - s) :: cs)
    else
      ems ++ sweep ((d, da - s) :: ds) cs
termination_by ds cs => ds.length + cs.length
decreasing_by all_goals simp +arith

/-- The branch of `sweep` in which neither side advances is unreachable:
after settling `min da ca`, one of the two remainders is zero. -/
theorem sweep_neither_advances_impossible (da ca : ℚ)
    (h1 : ¬ da - min da ca ≤ eps) : ca - min da ca ≤ eps := by
  rcases min_cases da ca with ⟨hm, _⟩ | ⟨hm, _⟩
  · exact absurd (by rw [hm, sub_self]; norm_num [eps]) h1
  · rw [hm, sub_self]; norm_num [eps]

/-- `_calculate_advanced_settlements` on the group's record set:
balance accumulation, partition at `±0.01`, stable descending sort of both
sides, then the greedy sweep. -/
def calculateAdvancedSettlements (records : List SettlementRecord) :
    List OptimizedSettlement :=
  let balances := buildUserBalances records
  sweep (sortDesc (debtorsOf balances)) (sortDesc (creditorsOf balances))

/-! ## Balance cache (`_recalculate_group_balances`, `_get_cached_balances`,
service.py lines 721–772) -/

/-- Fold the optimizer's output into per-member signed balances
(`member_balances = defaultdict(float)`; `fromUserId -= amount`,
`toUserId += amount`). -/
def balancesFromOptimized (optimized : List OptimizedSettlement) :
    List (String × ℚ) :=
  optimized.foldl
    (fun m s => updD 0 (· + s.amount) (updD 0 (· + (-s.amount)) m s.fromUserId) s.toUserId) []

/-- A group document, reduced to the fields the balance-cache layer reads. -/
structure GroupDoc where
  gid : String
  cachedBalances : Option (List (String × ℚ))
  deriving DecidableEq, Repr

/-- The persistent state seen by the cache layer: the `groups` collection and
the `settlements` collection. -/
structure DB where
  groups : List GroupDoc
  settlements : List SettlementRecord
  deriving DecidableEq, Repr

/-- `find_one({"_id": group_id})` on the groups collection. -/
def findGroup (db : DB) (groupId : String) : Option GroupDoc :=
  db.groups.find? (fun g => g.gid == groupId)

/-- The group's current record set
(`settlements_collection.find({"groupId": group_id})`). -/
def recordsOfGroup (db : DB) (groupId : String) : List SettlementRecord :=
  db.settlements.filter (fun r => r.groupId == groupId)

/-- `_recalculate_group_balances`: run the advanced optimizer over the group's
records, fold into per-member balances, and store them on the group document
(`update_one` is a no-op when no document matches).  Returns the balances and
the updated state. -/
def recalculateGroupBalances (db : DB) (groupId : String) :
    List (String × ℚ) × DB :=
  let balances := balancesFromOptimized (calculateAdvancedSettlements (recordsOfGroup db groupId))
  (balances,
   { db with
      groups := db.groups.map (fun g =>
        if g.gid == groupId then { g with cachedBalances := some balances } else g) })

/-- Result of `_get_cached_balances`: the returned map, the state after the
call, and whether a recalculation (read-repair) was performed. -/
structure CachedReadResult where
  balances : List (String × ℚ)
  db : DB
  recalculated : Bool
  deriving DecidableEq, Repr

/-- `_get_cached_balances`: missing group → `{}` with no recalculation and no
write; present cache → return it unchanged; cache miss → read-repair via
`_recalculate_group_balances`. -/
def getCachedBalances (db : DB) (groupId : String) : CachedReadResult :=
  match findGroup db groupId with
  | none => ⟨[], db, false⟩
  | some g =>
    match g.cachedBalances with
    | some cached => ⟨cached, db, false⟩
    | none =>
      match recalculateGroupBalances db groupId with
      | (balances, db') => ⟨balances, db', true⟩

/-! ## Settlement-record creation
(`_create_settlements_for_expense`, service.py lines 135–181;
`create_manual_settlement`, lines 774–838) -/

/-- One split line of an expense (`{userId, amount}` in the stored
`splits` array). -/
structure Split where
  userId : String
  amount : ℚ
  deriving DecidableEq, Repr

/-- `_create_settlements_for_expense`: for each split, skip it when the split
user is the payer, otherwise insert one record with the split user as debtor,
the payer as creditor, the split's amount, and status `"pending"`.  The loop
applies no threshold of any kind to the amount. -/
def createSettlementsForExpense (groupId expenseId : String) (splits : List Split)
    (payerId : String) : List SettlementRecord :=
  splits.filterMap (fun split =>
    if split.userId = payerId then none
    else some
      { expenseId := some expenseId
        groupId := groupId
        payerId := split.userId
        payeeId := payerId
        amount := split.amount
        status := "pending" })

/-- Modelled from the spec: `SettlementCreateRequest` lives in
`app/expenses/schemas`, which is not part of the sources; per spec §4.1
`createManual(payerId, payeeId, amount)` carries the two user ids and a
positive amount, and §7 lists the validations performed upstream (split sums,
malformed identifiers, nonexistent groups/users) — no payer-versus-payee
comparison among them. -/
structure SettlementCreateRequest where
  payer_id : String
  payee_id : String
  amount : ℚ
  deriving DecidableEq, Repr

/-- The record document built and inserted by `create_manual_settlement`
(after the group-membership authorization check, which raises before any write
and so cannot produce a record): `expenseId = None`, payer/payee copied from
the request, status `"completed"`. -/
def createManualSettlement (groupId : String) (req : SettlementCreateRequest) :
    SettlementRecord :=
  { expenseId := none
    groupId := groupId
    payerId := req.payer_id
    payeeId := req.payee_id
    amount := req.amount
    status := "completed" }

/-! ## Cross-group friends-balance summary
(`get_friends_balance_summary`, service.py lines 1150–1321) -/

/-- The per-friend aggregation value
(`defaultdict(lambda: {"balance": 0, "groups": []})`): the running signed
balance and the per-group breakdown entries `(groupId, signed amount)`. -/
structure FriendData where
  balance : ℚ
  groups : List (String × ℚ)
  deriving DecidableEq, Repr

/-- Process one optimized settlement of one group: when the user is the
debtor, subtract the amount from that friend's balance and record a negative
breakdown entry; when the user is the creditor, add and record positive;
settlements not touching the user are ignored. -/
def processSettlement (userId groupId : String)
    (fb : List (String × FriendData)) (s : OptimizedSettlement) :
    List (String × FriendData) :=
  if s.fromUserId = userId then
    updD ⟨0, []⟩ (fun fd => ⟨fd.balance - s.amount, fd.groups ++ [(groupId, -s.amount)]⟩)
      fb s.toUserId
  else if s.toUserId = userId then
    updD ⟨0, []⟩ (fun fd => ⟨fd.balance + s.amount, fd.groups ++ [(groupId, s.amount)]⟩)
      fb s.fromUserId
  else fb

/-- The aggregation loop over all of the user's groups, each contributing its
fresh advanced-optimizer output (`calculate_optimized_settlements` with the
default `"advanced"` algorithm).  A group is `(groupId, its record set)`. -/
def aggregateFriendBalances (userId : String)
    (groups : List (String × List SettlementRecord)) : List (String × FriendData) :=
  groups.foldl
    (fun fb g => (calculateAdvancedSettlements g.2).foldl (processSettlement userId g.1) fb) []

/-- The summary returned by `get_friends_balance_summary`; the name and image
fields of each friend entry are display-only and omitted, `friendsBalance`
keeps `(friendId, rounded net balance)`. -/
structure FriendsSummary where
  friendsBalance : List (String × ℚ)
  totalOwedToYou : ℚ
  totalYouOwe : ℚ
  netBalance : ℚ
  friendCount : ℕ
  activeGroups : ℕ
  deriving DecidableEq, Repr

/-- `get_friends_balance_summary`: aggregate across groups, drop friends with
`abs(balance) <= 0.01`, then fold the kept balances into the two totals
(`if total_balance > 0` → owed-to-you, else → you-owe via `abs`) and round
everything to two decimals on emission.  The two early returns (no groups /
no surviving friend) are the code's literal zero summaries. -/
def getFriendsBalanceSummary (userId : String)
    (groups : List (String × List SettlementRecord)) : FriendsSummary :=
  if groups.isEmpty then ⟨[], 0, 0, 0, 0, 0⟩
  else
    let fb := aggregateFriendBalances userId groups
    let kept := fb.filter (fun p => eps < |p.2.balance|)
    if kept.isEmpty then ⟨[], 0, 0, 0, 0, groups.length⟩
    else
      let totals := kept.foldl
        (fun (t : ℚ × ℚ) p =>
          if 0 < p.2.balance then (t.1 + p.2.balance, t.2) else (t.1, t.2 + |p.2.balance|))
        (0, 0)
      ⟨kept.map (fun p => (p.1, round2 p.2.balance)),
       round2 totals.1, round2 totals.2, round2 (totals.1 - totals.2),
       kept.length, groups.length⟩

/-! ## Derived notions used by the claims -/

/-- The per-user net balance derived from a settlement list by summing each
settlement as `-amount` for its `fromUserId` and `+amount` for its
`toUserId`. -/
def netOf (l : List OptimizedSettlement) (u : String) : ℚ :=
  (l.map (fun s =>
    (if s.fromUserId = u then -s.amount else 0) +
    (if s.toUserId = u then s.amount else 0))).sum

/-- An exact multiple of `0.01` — the form of every amount the optimizer
emits (it rounds to two decimals on emission). -/
def IsCent (q : ℚ) : Prop := ∃ k : ℤ, q = k / 100

/-! ## Association-list lemmas -/

theorem keysOf_updD {α : Type} (dfl : α) (f : α → α) (m : List (String × α)) (k : String) :
    keysOf (updD dfl f m k) =
      if k ∈ keysOf m then keysOf m else keysOf m ++ [k] := by
  induction m with
  | nil => simp [updD, keysOf]
  | cons p rest ih =>
    by_cases hk : p.1 = k
    · simp [updD, keysOf, hk]
    · simp only [keysOf, List.map_cons] at ih ⊢
      simp only [updD, hk, if_false, List.map_cons]
      rw [ih]
      by_cases hmem : k ∈ rest.map Prod.fst <;>
        simp [hmem, Ne.symm hk]

theorem nodup_keysOf_updD {α : Type} (dfl : α) (f : α → α)
    {m : List (String × α)} (k : String) (h : (keysOf m).Nodup) :
    (keysOf (updD dfl f m k)).Nodup := by
  rw [keysOf_updD]
  by_cases hmem : k ∈ keysOf m
  · simpa [hmem] using h
  · simp only [hmem, if_false]
    exact List.Nodup.append h (List.nodup_singleton k) (by simpa using hmem)

theorem forall_updD {α : Type} {P : α → Prop} (dfl : α) (f : α → α)
    {m : List (String × α)} (k : String)
    (hm : ∀ p ∈ m, P p.2) (hf : ∀ v, P v → P (f v)) (hdfl : P dfl) :
    ∀ p ∈ updD dfl f m k, P p.2 := by
  induction m with
  | nil =>
    intro p hp
    simp only [updD, List.mem_singleton] at hp
    subst hp
    exact hf dfl hdfl
  | cons q rest ih =>
    intro p hp
    by_cases hk : q.1 = k
    · simp only [updD, hk, if_true] at hp
      rcases List.mem_cons.mp hp with hp' | hp'
      · subst hp'; exact hf q.2 (hm q (List.mem_cons_self q rest))
      · exact hm p (List.mem_cons_of_mem q hp')
    · simp only [updD, hk, if_false] at hp
      rcases List.mem_cons.mp hp with hp' | hp'
      · subst hp'; exact hm q (List.mem_cons_self q rest)
      · exact ih (fun r hr => hm r (List.mem_cons_of_mem q hr)) p hp'

theorem sumValues_updD_add (m : List (String × ℚ)) (k : String) (v : ℚ) :
    sumValues (updD 0 (· + v) m k) = sumValues m + v := by
  induction m with
  | nil => simp [updD, sumValues]
  | cons p rest ih =>
    by_cases hk : p.1 = k
    · simp [updD, hk, sumValues]; ring
    · simp only [updD, hk, if_false, sumValues, List.map_cons, List.sum_cons]
      have ih' : (List.map Prod.snd (updD 0 (· + v) rest k)).sum =
          (List.map Prod.snd rest).sum + v := ih
      rw [ih']
      ring

theorem alookup_eq_of_mem {α : Type} {m : List (String × α)} {k : String} {v : α}
    (hnd : (keysOf m).Nodup) (hmem : (k, v) ∈ m) : alookup m k = some v := by
  induction m with
  | nil => simp at hmem
  | cons p rest ih =>
    simp only [keysOf, List.map_cons, List.nodup_cons] at hnd
    rcases List.mem_cons.mp hmem with hmem' | hmem'
    · rw [← hmem']
      simp [alookup]
    · have hk : p.1 ≠ k := by
        intro he
        exact hnd.1 (by rw [he]; exact List.mem_map.mpr ⟨(k, v), hmem', rfl⟩)
      simp only [alookup, hk, if_false]
      exact ih hnd.2 hmem'

theorem value_eq_of_mem_of_nodup {α : Type} {m : List (String × α)} {k : String}
    {v w : α} (hnd : (keysOf m).Nodup) (hv : (k, v) ∈ m) (hw : (k, w) ∈ m) : v = w := by
  have h1 := alookup_eq_of_mem hnd hv
  have h2 := alookup_eq_of_mem hnd hw
  rw [h1] at h2
  exact Option.some.inj h2

/-! ## Multiples of `0.01` -/

theorem isCent_zero : IsCent 0 := ⟨0, by norm_num⟩

theorem isCent_add {a b : ℚ} (ha : IsCent a) (hb : IsCent b) : IsCent (a + b) := by
  obtain ⟨m, hm⟩ := ha
  obtain ⟨n, hn⟩ := hb
  exact ⟨m + n, by rw [hm, hn]; push_cast; ring⟩

theorem isCent_neg {a : ℚ} (ha : IsCent a) : IsCent (-a) := by
  obtain ⟨m, hm⟩ := ha
  exact ⟨-m, by rw [hm]; push_cast; ring⟩

theorem isCent_sub {a b : ℚ} (ha : IsCent a) (hb : IsCent b) : IsCent (a - b) := by
  rw [sub_eq_add_neg]
  exact isCent_add ha (isCent_neg hb)

theorem isCent_abs {a : ℚ} (ha : IsCent a) : IsCent |a| := by
  rcases abs_cases a with ⟨h, _⟩ | ⟨h, _⟩
  · rwa [h]
  · rw [h]; exact isCent_neg ha

theorem isCent_round2 (q : ℚ) : IsCent (round2 q) := ⟨round (q * 100), rfl⟩

theorem round2_eq_self_of_isCent {q : ℚ} (hq : IsCent q) : round2 q = q := by
  obtain ⟨k, hk⟩ := hq
  subst hk
  rw [round2, div_mul_cancel₀ (h := by norm_num), round_intCast]

theorem isCent_sum {l : List ℚ} (h : ∀ q ∈ l, IsCent q) : IsCent l.sum := by
  induction l with
  | nil => simpa using isCent_zero
  | cons a rest ih =>
    rw [List.sum_cons]
    exact isCent_add (h a (List.mem_cons_self a rest))
      (ih (fun q hq => h q (List.mem_cons_of_mem a hq)))

/-! ## The stable descending sort -/

theorem insertDesc_perm (x : String × ℚ) (l : List (String × ℚ)) :
    (insertDesc x l).Perm (x :: l) := by
  induction l with
  | nil => simp [insertDesc]
  | cons y rest ih =>
    by_cases h : x.2 < y.2 ∨ x.2 = y.2
    · simp only [insertDesc, h, if_true]
      exact (ih.cons y).trans (List.Perm.swap x y rest)
    · simp [insertDesc, h]

theorem sortDesc_perm (l : List (String × ℚ)) : (sortDesc l).Perm l := by
  induction l with
  | nil => simp [sortDesc]
  | cons x rest ih =>
    exact (insertDesc_perm x (sortDesc rest)).trans (ih.cons x)

/-! ## Sweep lemmas -/

theorem mem_sweep (e : OptimizedSettlement) :
    ∀ dl cl : List (String × ℚ), e ∈ sweep dl cl →
      e.fromUserId ∈ dl.map Prod.fst ∧ e.toUserId ∈ cl.map Prod.fst := by
  intro dl cl h
  induction dl, cl using sweep.induct with
  | case1 cl => simp [sweep] at h
  | case2 d ds => simp [sweep] at h
  | case3 d da ds c ca cs s hd hc ih =>
    simp only [sweep] at h
    rw [if_pos hd, if_pos hc] at h
    rcases List.mem_append.mp h with h' | h'
    · have he : e = ⟨d, c, round2 (min da ca)⟩ := by
        split at h' <;> simp_all
      subst he
      constructor <;> simp
    · obtain ⟨h1, h2⟩ := ih h'
      exact ⟨by simp only [List.map_cons, List.mem_cons]; exact Or.inr h1,
             by simp only [List.map_cons, List.mem_cons]; exact Or.inr h2⟩
  | case4 d da ds c ca cs s hd hc ih =>
    simp only [sweep] at h
    rw [if_pos hd, if_neg hc] at h
    rcases List.mem_append.mp h with h' | h'
    · have he : e = ⟨d, c, round2 (min da ca)⟩ := by
        split at h' <;> simp_all
      subst he
      constructor <;> simp
    · obtain ⟨h1, h2⟩ := ih h'
      simp only [List.map_cons, List.mem_cons] at h2
      exact ⟨by simp only [List.map_cons, List.mem_cons]; exact Or.inr h1,
             by simp only [List.map_cons, List.mem_cons]; exact h2⟩
  | case5 d da ds c ca cs s hd ih =>
    simp only [sweep] at h
    rw [if_neg hd] at h
    rcases List.mem_append.mp h with h' | h'
    · have he : e = ⟨d, c, round2 (min da ca)⟩ := by
        split at h' <;> simp_all
      subst he
      constructor <;> simp
    · obtain ⟨h1, h2⟩ := ih h'
      simp only [List.map_cons, List.mem_cons] at h1
      exact ⟨by simp only [List.map_cons, List.mem_cons]; exact h1,
             by simp only [List.map_cons, List.mem_cons]; exact Or.inr h2⟩

theorem isCent_sweep_amount (e : OptimizedSettlement) :
    ∀ dl cl : List (String × ℚ), e ∈ sweep dl cl → IsCent e.amount := by
  intro dl cl h
  induction dl, cl using sweep.induct with
  | case1 cl => simp [sweep] at h
  | case2 d ds => simp [sweep] at h
  | case3 d da ds c ca cs s hd hc ih =>
    simp only [sweep] at h
    rw [if_pos hd, if_pos hc] at h
    rcases List.mem_append.mp h with h' | h'
    · have he : e = ⟨d, c, round2 (min da ca)⟩ := by
        split at h' <;> simp_all
      rw [he]
      exact isCent_round2 _
    · exact ih h'
  | case4 d da ds c ca cs s hd hc ih =>
    simp only [sweep] at h
    rw [if_pos hd, if_neg hc] at h
    rcases List.mem_append.mp h with h' | h'
    · have he : e = ⟨d, c, round2 (min da ca)⟩ := by
        split at h' <;> simp_all
      rw [he]
      exact isCent_round2 _
    · exact ih h'
  | case5 d da ds c ca cs s hd ih =>
    simp only [sweep] at h
    rw [if_neg hd] at h
    rcases List.mem_append.mp h with h' | h'
    · have he : e = ⟨d, c, round2 (min da ca)⟩ := by
        split at h' <;> simp_all
      rw [he]
      exact isCent_round2 _
    · exact ih h'

/-! ## Balance accumulation and the debtor/creditor partition -/

theorem nodup_keysOf_buildUserBalances (records : List SettlementRecord) :
    (keysOf (buildUserBalances records)).Nodup := by
  have main : ∀ m : List (String × ℚ), (keysOf m).Nodup →
      (keysOf (records.foldl
        (fun m r => updD 0 (· + (-r.amount)) (updD 0 (· + r.amount) m r.payerId) r.payeeId)
        m)).Nodup := by
    induction records with
    | nil => intro m hm; simpa using hm
    | cons r rest ih =>
      intro m hm
      simp only [List.foldl_cons]
      exact ih _ (nodup_keysOf_updD _ _ _ (nodup_keysOf_updD _ _ _ hm))
  exact main [] (by simp [keysOf])

theorem mem_debtorsOf {bal : List (String × ℚ)} {p : String × ℚ} :
    p ∈ debtorsOf bal ↔ p ∈ bal ∧ eps < p.2 := by
  simp only [debtorsOf, List.mem_filterMap]
  constructor
  · rintro ⟨q, hq, hf⟩
    by_cases h : eps < q.2
    · simp only [h, if_true, Option.some.injEq] at hf
      rw [← hf]
      exact ⟨hq, h⟩
    · simp [h] at hf
  · rintro ⟨hp, h⟩
    exact ⟨p, hp, by simp [h]⟩

theorem mem_creditorsOf {bal : List (String × ℚ)} {p : String × ℚ} :
    p ∈ creditorsOf bal ↔ ∃ b, (p.1, b) ∈ bal ∧ b < -eps ∧ p.2 = -b := by
  simp only [creditorsOf, List.mem_filterMap]
  constructor
  · rintro ⟨q, hq, hf⟩
    by_cases h : q.2 < -eps
    · simp only [h, if_true, Option.some.injEq] at hf
      refine ⟨q.2, ?_, h, ?_⟩
      · rw [← hf]; exact hq
      · rw [← hf]
    · simp [h] at hf
  · rintro ⟨b, hb, hlt, hp2⟩
    refine ⟨(p.1, b), hb, ?_⟩
    simp only [hlt, if_true, Option.some.injEq]
    rw [show p = (p.1, p.2) from rfl, hp2]

theorem debtor_creditor_keys_disjoint {bal : List (String × ℚ)}
    (hnd : (keysOf bal).Nodup) {k : String}
    (hd : k ∈ (debtorsOf bal).map Prod.fst)
    (hc : k ∈ (creditorsOf bal).map Prod.fst) : False := by
  obtain ⟨p, hp, hpk⟩ := List.mem_map.mp hd
  obtain ⟨q, hq, hqk⟩ := List.mem_map.mp hc
  obtain ⟨hpmem, hpgt⟩ := mem_debtorsOf.mp hp
  obtain ⟨b, hbmem, hblt, _⟩ := mem_creditorsOf.mp hq
  have hkp : (k, p.2) ∈ bal := by rw [← hpk]; exact hpmem
  have hkb : (k, b) ∈ bal := by rw [← hqk]; exact hbmem
  have hpb : p.2 = b := value_eq_of_mem_of_nodup hnd hkp hkb
  rw [hpb] at hpgt
  have : eps < -eps := hpgt.trans hblt
  norm_num [eps] at this

/-! ## Zero-sum of the cached balances -/

theorem sumValues_balancesFromOptimized (l : List OptimizedSettlement) :
    sumValues (balancesFromOptimized l) = 0 := by
  have main : ∀ m : List (String × ℚ),
      sumValues (l.foldl
        (fun m s => updD 0 (· + s.amount) (updD 0 (· + (-s.amount)) m s.fromUserId) s.toUserId)
        m) = sumValues m := by
    induction l with
    | nil => intro m; rfl
    | cons s rest ih =>
      intro m
      simp only [List.foldl_cons]
      rw [ih, sumValues_updD_add, sumValues_updD_add]
      ring
  rw [balancesFromOptimized, main]
  rfl

/-! ## Friends-balance aggregation lemmas -/

theorem isCent_calculateAdvancedSettlements {records : List SettlementRecord}
    {e : OptimizedSettlement} (he : e ∈ calculateAdvancedSettlements records) :
    IsCent e.amount :=
  isCent_sweep_amount e _ _ he

theorem nodup_keysOf_processSettlement (userId gid : String)
    {fb : List (String × FriendData)} (s : OptimizedSettlement)
    (h : (keysOf fb).Nodup) : (keysOf (processSettlement userId gid fb s)).Nodup := by
  unfold processSettlement
  split_ifs
  · exact nodup_keysOf_updD _ _ _ h
  · exact nodup_keysOf_updD _ _ _ h
  · exact h

theorem isCent_processSettlement (userId gid : String)
    {fb : List (String × FriendData)} {s : OptimizedSettlement} (hs : IsCent s.amount)
    (h : ∀ p ∈ fb, IsCent p.2.balance) :
    ∀ p ∈ processSettlement userId gid fb s, IsCent p.2.balance := by
  unfold processSettlement
  split_ifs
  · exact forall_updD (P := fun fd : FriendData => IsCent fd.balance) _ _ _ h
      (fun v hv => isCent_sub hv hs) isCent_zero
  · exact forall_updD (P := fun fd : FriendData => IsCent fd.balance) _ _ _ h
      (fun v hv => isCent_add hv hs) isCent_zero
  · exact h

theorem nodup_keysOf_aggregateFriendBalances (userId : String)
    (groups : List (String × List SettlementRecord)) :
    (keysOf (aggregateFriendBalances userId groups)).Nodup := by
  have inner : ∀ (gid : String) (ss : List OptimizedSettlement)
      (fb : List (String × FriendData)), (keysOf fb).Nodup →
      (keysOf (ss.foldl (processSettlement userId gid) fb)).Nodup := by
    intro gid ss
    induction ss with
    | nil => intro fb h; exact h
    | cons s rest ih =>
      intro fb h
      exact ih _ (nodup_keysOf_processSettlement userId gid s h)
  have outer : ∀ (gs : List (String × List SettlementRecord))
      (fb : List (String × FriendData)), (keysOf fb).Nodup →
      (keysOf (gs.foldl
        (fun fb g => (calculateAdvancedSettlements g.2).foldl (processSettlement userId g.1) fb)
        fb)).Nodup := by
    intro gs
    induction gs with
    | nil => intro fb h; exact h
    | cons g rest ih =>
      intro fb h
      exact ih _ (inner g.1 _ fb h)
  exact outer groups [] (by simp [keysOf])

theorem isCent_aggregateFriendBalances (userId : String)
    (groups : List (String × List SettlementRecord)) :
    ∀ p ∈ aggregateFriendBalances userId groups, IsCent p.2.balance := by
  have inner : ∀ (gid : String) (ss : List OptimizedSettlement)
      (fb : List (String × FriendData)), (∀ s ∈ ss, IsCent s.amount) →
      (∀ p ∈ fb, IsCent p.2.balance) →
      ∀ p ∈ ss.foldl (processSettlement userId gid) fb, IsCent p.2.balance := by
    intro gid ss
    induction ss with
    | nil => intro fb _ h; exact h
    | cons s rest ih =>
      intro fb hss h
      exact ih _ (fun s' hs' => hss s' (List.mem_cons_of_mem s hs'))
        (isCent_processSettlement userId gid (hss s (List.mem_cons_self s rest)) h)
  have outer : ∀ (gs : List (String × List SettlementRecord))
      (fb : List (String × FriendData)), (∀ p ∈ fb, IsCent p.2.balance) →
      ∀ p ∈ gs.foldl
        (fun fb g => (calculateAdvancedSettlements g.2).foldl (processSettlement userId g.1) fb)
        fb, IsCent p.2.balance := by
    intro gs
    induction gs with
    | nil => intro fb h; exact h
    | cons g rest ih =>
      intro fb h
      exact ih _ (inner g.1 _ fb (fun s hs => isCent_calculateAdvancedSettlements hs) h)
  exact outer groups [] (by simp)

theorem foldl_totals (l : List (String × FriendData)) :
    ∀ t : ℚ × ℚ,
      l.foldl
        (fun (t : ℚ × ℚ) p =>
          if 0 < p.2.balance then (t.1 + p.2.balance, t.2) else (t.1, t.2 + |p.2.balance|))
        t =
      (t.1 + (((l.map (fun p => p.2.balance)).filter (fun b => 0 < b)).sum),
       t.2 + ((((l.map (fun p => p.2.balance)).filter (fun b => ¬ 0 < b)).map
          (fun b => |b|)).sum)) := by
  induction l with
  | nil => intro t; simp
  | cons p rest ih =>
    intro t
    simp only [List.foldl_cons, List.map_cons, List.filter_cons]
    by_cases h : 0 < p.2.balance
    · rw [if_pos h, ih, if_pos (by simpa using h), if_neg (by simpa using h)]
      simp [List.sum_cons, add_assoc]
    · rw [if_neg h, ih, if_neg (by simpa using h), if_pos (by simpa using h)]
      simp [List.sum_cons, add_assoc]

/-! ## Claim theorems -/

/-- **C1**: the claim states that the normal (pairwise netting) algorithm
visits every unordered pair at most once (deduplicated via a processed-pairs
set) and that `{A owes B 30, B owes A 10}` yields exactly one relation
`A owes B 20`.  The code has no processed-pairs set: the pair is visited once
per direction and the netted relation is emitted twice.  This theorem
evaluates the embedded algorithm at that record set and shows the duplicated
output. -/
theorem c1_normal_emits_pair_twice :
    calculateNormalSettlements
      [⟨some "E1", "g1", "A", "B", 30, "pending"⟩,
       ⟨some "E2", "g1", "B", "A", 10, "pending"⟩] =
    .ok [⟨"A", "B", 20⟩, ⟨"A", "B", 20⟩] := by
  simp [calculateNormalSettlements, buildNetBalances, outerAdd, updD,
    keysOf, outerLoop, innerLoop, pairBody, ddRead, alookup]
  norm_num [eps, round2]

/-- **C8**: the claim states that the normal algorithm is total, including on
record sets where some user appears only as a creditor.  On the single record
`A owes B 10`, the read `net_balances[B][A]` default-inserts `B` into the
outer dict while it is being iterated, and CPython raises
`RuntimeError: dictionary changed size during iteration`; the embedding
returns the corresponding error. -/
theorem c8_normal_raises_runtimeerror :
    calculateNormalSettlements [⟨some "E1", "g1", "A", "B", 10, "pending"⟩] =
    .error "RuntimeError: dictionary changed size during iteration" := by
  simp [calculateNormalSettlements, buildNetBalances, outerAdd, updD,
    keysOf, outerLoop, innerLoop, pairBody, ddRead, alookup]

/-- **C2**: the claim states that the per-user net balances derived from the
normal and advanced outputs agree within `0.01` for every record set.  On
`{A owes B 30, B owes A 10}` the normal algorithm emits `A→B 20` twice (no
pair dedupe), so A's derived net is `-40`, while the advanced algorithm nets
A to `-20`: the outputs disagree by `20 > 0.01`. -/
theorem c2_algorithms_disagree_on_net_balance :
    (calculateNormalSettlements
      [⟨some "E1", "g1", "A", "B", 30, "pending"⟩,
       ⟨some "E2", "g1", "B", "A", 10, "pending"⟩]).map (fun l => netOf l "A") =
      .ok (-40) ∧
    netOf (calculateAdvancedSettlements
      [⟨some "E1", "g1", "A", "B", 30, "pending"⟩,
       ⟨some "E2", "g1", "B", "A", 10, "pending"⟩]) "A" = -20 ∧
    eps < |(-40 : ℚ) - (-20)| := by
  have hn : calculateNormalSettlements
      [⟨some "E1", "g1", "A", "B", 30, "pending"⟩,
       ⟨some "E2", "g1", "B", "A", 10, "pending"⟩] =
      .ok [⟨"A", "B", 20⟩, ⟨"A", "B", 20⟩] := by
    simp [calculateNormalSettlements, buildNetBalances, outerAdd, updD,
      keysOf, outerLoop, innerLoop, pairBody, ddRead, alookup]
    norm_num [eps, round2]
  have hb : buildUserBalances
      [⟨some "E1", "g1", "A", "B", 30, "pending"⟩,
       ⟨some "E2", "g1", "B", "A", 10, "pending"⟩] = [("A", 20), ("B", -20)] := by
    simp [buildUserBalances, updD]
    norm_num
  have hd : sortDesc (debtorsOf [("A", 20), ("B", -20)]) = [("A", 20)] := by
    norm_num [debtorsOf, sortDesc, insertDesc, eps, List.filterMap_cons]
  have hc : sortDesc (creditorsOf [("A", 20), ("B", -20)]) = [("B", 20)] := by
    norm_num [creditorsOf, sortDesc, insertDesc, eps, List.filterMap_cons]
  have hs : sweep [("A", 20)] [("B", 20)] = [⟨"A", "B", 20⟩] := by
    norm_num [sweep, eps, round2]
  have ha : calculateAdvancedSettlements
      [⟨some "E1", "g1", "A", "B", 30, "pending"⟩,
       ⟨some "E2", "g1", "B", "A", 10, "pending"⟩] = [⟨"A", "B", 20⟩] := by
    simp only [calculateAdvancedSettlements]
    rw [hb, hd, hc, hs]
  refine ⟨?_, ?_, by norm_num [eps]⟩
  · rw [hn]
    simp [netOf, Except.map]
    norm_num
  · rw [ha]
    simp [netOf]

/-- **C5**: on debtors `X:60, Y:40` and creditors `Z:70, W:30` (fixed points
of the descending sort), the advanced two-pointer greedy sweep emits exactly
`X→Z 60`, `Y→Z 10`, `Y→W 30`, settling `100` in total. -/
theorem c5_greedy_sweep_trace_exampleB :
    sweep [("X", 60), ("Y", 40)] [("Z", 70), ("W", 30)] =
      [⟨"X", "Z", 60⟩, ⟨"Y", "Z", 10⟩, ⟨"Y", "W", 30⟩] ∧
    sortDesc [("X", 60), ("Y", 40)] = [("X", 60), ("Y", 40)] ∧
    sortDesc [("Z", 70), ("W", 30)] = [("Z", 70), ("W", 30)] ∧
    (60 : ℚ) + 10 + 30 = 100 := by
  refine ⟨?_, ?_, ?_, by norm_num⟩
  · norm_num [sweep, eps, round2]
  · norm_num [sortDesc, insertDesc]
  · norm_num [sortDesc, insertDesc]

/-- **C4** (counterexample): the claim states that a split whose share is
below `0.01` is skipped.  For the expense with payer `A` and single split
`(B, 0.005)`, `_create_settlements_for_expense` creates one record of amount
`0.005` even though `0.005 < 0.01` — there is no minimum-amount check. -/
theorem c4_subcent_split_creates_record :
    (createSettlementsForExpense "g1" "E1" [⟨"B", 1/200⟩] "A").map
      (fun r => (r.payerId, r.payeeId, r.amount)) = [("B", "A", 1/200)] ∧
    (1/200 : ℚ) < eps := by
  constructor
  · simp [createSettlementsForExpense]
  · norm_num [eps]

/-- **C4** (amended): creating settlements from an expense emits, for every
split whose user is not the payer, exactly one record with the split's user
as debtor, the payer as creditor and the split's amount — with no
minimum-amount skip: splits below `0.01` also produce records. -/
theorem c4_one_record_per_nonpayer_split (gid eid payer : String)
    (splits : List Split) :
    (createSettlementsForExpense gid eid splits payer).map
      (fun r => (r.payerId, r.payeeId, r.amount)) =
    (splits.filter (fun s => s.userId ≠ payer)).map
      (fun s => (s.userId, payer, s.amount)) := by
  induction splits with
  | nil => rfl
  | cons s rest ih =>
    simp only [createSettlementsForExpense, List.filterMap_cons, List.filter_cons] at ih ⊢
    by_cases h : s.userId = payer
    · simpa [h] using ih
    · simpa [h] using ih

/-- **C3** (counterexample): the claim states that no operation inserting a
`SettlementRecord` ever creates one with `payerId == payeeId`.  But
`create_manual_settlement` copies the request's ids without comparing them: a
manual-settlement request with `payer_id = payee_id = "A"` produces a record
with equal payer and payee. -/
theorem c3_manual_self_settlement :
    (createManualSettlement "g1" ⟨"A", "A", 5⟩).payerId =
    (createManualSettlement "g1" ⟨"A", "A", 5⟩).payeeId := rfl

/-- **C3** (amended): expense-derived creation never writes a record with
`payerId == payeeId` (the payer's own split is skipped), while manual
settlement creation performs no such check — it copies `payer_id` and
`payee_id` from the request unchanged, so a self-pay request yields a
self-pay record. -/
theorem c3_no_self_pay_amended :
    (∀ (gid eid payer : String) (splits : List Split) (r : SettlementRecord),
        r ∈ createSettlementsForExpense gid eid splits payer →
        r.payerId ≠ r.payeeId) ∧
    (∀ (gid : String) (req : SettlementCreateRequest),
        (createManualSettlement gid req).payerId = req.payer_id ∧
        (createManualSettlement gid req).payeeId = req.payee_id) := by
  constructor
  · intro gid eid payer splits r hr
    simp only [createSettlementsForExpense, List.mem_filterMap] at hr
    obtain ⟨s, _, hf⟩ := hr
    by_cases h : s.userId = payer
    · simp [h] at hf
    · simp only [h, if_false, Option.some.injEq] at hf
      rw [← hf]
      exact h
  · intro gid req
    exact ⟨rfl, rfl⟩

/-- Witness for `c3_no_self_pay_amended` at the expense `(payer A, split
B:10)` whose single emitted record is `B owes A 10`. -/
theorem c3_no_self_pay_amended_witness :
    ({ expenseId := some "E1", groupId := "g1", payerId := "B", payeeId := "A",
       amount := 10, status := "pending" } : SettlementRecord).payerId ≠
    ({ expenseId := some "E1", groupId := "g1", payerId := "B", payeeId := "A",
       amount := 10, status := "pending" } : SettlementRecord).payeeId :=
  c3_no_self_pay_amended.1 "g1" "E1" "A" [⟨"B", 10⟩] _
    (by simp [createSettlementsForExpense])

/-- **C6**: for every state and group, the per-user balances produced by
`_recalculate_group_balances` (folding the advanced optimizer's output as
`fromUserId -= amount`, `toUserId += amount`) sum to zero over all users —
exactly, hence in particular within `0.01`. -/
theorem c6_recalculated_balances_zero_sum (db : DB) (groupId : String) :
    |sumValues (recalculateGroupBalances db groupId).1| ≤ eps := by
  have h : sumValues (recalculateGroupBalances db groupId).1 = 0 := by
    simp only [recalculateGroupBalances]
    exact sumValues_balancesFromOptimized _
  rw [h]
  norm_num [eps]

/-- **C9**: every settlement emitted by the advanced algorithm pays a debtor's
money to a distinct creditor: the debtor partition (balance `> 0.01`) and the
creditor partition (balance `< -0.01`) of the per-user balance map are
disjoint, and each emitted payment pairs a member of the first with a member
of the second, so `fromUserId ≠ toUserId`. -/
theorem c9_advanced_no_self_payment :
    (∀ (records : List SettlementRecord) (e : OptimizedSettlement),
        e ∈ calculateAdvancedSettlements records → e.fromUserId ≠ e.toUserId) ∧
    (∀ (records : List SettlementRecord) (k : String),
        k ∈ keysOf (debtorsOf (buildUserBalances records)) →
        k ∉ keysOf (creditorsOf (buildUserBalances records))) := by
  have disj : ∀ (records : List SettlementRecord) (k : String),
      k ∈ keysOf (debtorsOf (buildUserBalances records)) →
      k ∉ keysOf (creditorsOf (buildUserBalances records)) := by
    intro records k hd hc
    exact debtor_creditor_keys_disjoint (nodup_keysOf_buildUserBalances records) hd hc
  refine ⟨?_, disj⟩
  intro records e he hfe
  simp only [calculateAdvancedSettlements] at he
  obtain ⟨h1, h2⟩ := mem_sweep e _ _ he
  have h1' : e.fromUserId ∈ (debtorsOf (buildUserBalances records)).map Prod.fst :=
    ((sortDesc_perm _).map Prod.fst).mem_iff.mp h1
  have h2' : e.toUserId ∈ (creditorsOf (buildUserBalances records)).map Prod.fst :=
    ((sortDesc_perm _).map Prod.fst).mem_iff.mp h2
  rw [hfe] at h1'
  exact disj records e.toUserId h1' h2'

/-- Evaluation of the advanced algorithm on the single record `B owes A 25`,
used by the witness of `c9_advanced_no_self_payment`. -/
theorem advancedDemo_eval :
    calculateAdvancedSettlements [⟨none, "g1", "B", "A", 25, "completed"⟩] =
      [⟨"B", "A", 25⟩] := by
  have hb : buildUserBalances [⟨none, "g1", "B", "A", 25, "completed"⟩] =
      [("B", 25), ("A", -25)] := by
    simp [buildUserBalances, updD]
  have hd : sortDesc (debtorsOf [("B", 25), ("A", -25)]) = [("B", 25)] := by
    norm_num [debtorsOf, sortDesc, insertDesc, eps, List.filterMap_cons]
  have hc : sortDesc (creditorsOf [("B", 25), ("A", -25)]) = [("A", 25)] := by
    norm_num [creditorsOf, sortDesc, insertDesc, eps, List.filterMap_cons]
  have hs : sweep [("B", 25)] [("A", 25)] = [⟨"B", "A", 25⟩] := by
    norm_num [sweep, eps, round2]
  simp only [calculateAdvancedSettlements]
  rw [hb, hd, hc, hs]

/-- Evaluation of the debtor partition on the same record, used by the witness
of `c9_advanced_no_self_payment`. -/
theorem advancedDemo_debtors :
    debtorsOf (buildUserBalances [⟨none, "g1", "B", "A", 25, "completed"⟩]) =
      [("B", 25)] := by
  have hb : buildUserBalances [⟨none, "g1", "B", "A", 25, "completed"⟩] =
      [("B", 25), ("A", -25)] := by
    simp [buildUserBalances, updD]
  rw [hb]
  norm_num [debtorsOf, eps, List.filterMap_cons]

/-- Witness for `c9_advanced_no_self_payment` on the single record
`B owes A 25`, whose advanced output is the one settlement `B → A 25`. -/
theorem c9_advanced_no_self_payment_witness :
    ("B" : String) ≠ "A" ∧
    ("B" : String) ∉ keysOf (creditorsOf (buildUserBalances
      [⟨none, "g1", "B", "A", 25, "completed"⟩])) :=
  ⟨c9_advanced_no_self_payment.1 [⟨none, "g1", "B", "A", 25, "completed"⟩]
      ⟨"B", "A", 25⟩ (by simp [advancedDemo_eval]),
   c9_advanced_no_self_payment.2 [⟨none, "g1", "B", "A", 25, "completed"⟩] "B"
      (by simp [advancedDemo_debtors, keysOf])⟩

/-- **C10**: reading cached balances for a `groupId` that matches no group
document returns the empty map with the state unchanged and no recalculation;
and whenever `_get_cached_balances` does recalculate (read-repair), the group
exists. -/
theorem c10_missing_group_returns_empty :
    (∀ (db : DB) (gid : String), findGroup db gid = none →
        getCachedBalances db gid = ⟨[], db, false⟩) ∧
    (∀ (db : DB) (gid : String), (getCachedBalances db gid).recalculated = true →
        (findGroup db gid).isSome) := by
  constructor
  · intro db gid h
    simp [getCachedBalances, h]
  · intro db gid h
    by_cases hf : (findGroup db gid).isSome
    · exact hf
    · rw [Option.not_isSome_iff_eq_none] at hf
      simp [getCachedBalances, hf] at h
/-- Witness for `c10_missing_group_returns_empty`: a one-group state queried
for an absent group id (no recalculation, state unchanged), and the same state
queried for the cache-less existing group (read-repair fires, group exists). -/
theorem c10_missing_group_returns_empty_witness :
    getCachedBalances ⟨[⟨"g1", none⟩], []⟩ "g2" = ⟨[], ⟨[⟨"g1", none⟩], []⟩, false⟩ ∧
    (findGroup ⟨[⟨"g1", none⟩], []⟩ "g1").isSome :=
  ⟨c10_missing_group_returns_empty.1 ⟨[⟨"g1", none⟩], []⟩ "g2" (by rfl),
   c10_missing_group_returns_empty.2 ⟨[⟨"g1", none⟩], []⟩ "g1" (by rfl)⟩

/-- The epsilon is positive. -/
theorem eps_pos : 0 < eps := by norm_num [eps]

/-- Aggregation of the two-group example in which friend `F`'s positive
balance from group `g1` cancels against group `g2`; used by the witness of
`c7_friends_summary_totals`. -/
theorem aggDemo_eval : aggregateFriendBalances "U"
    [("g1", [⟨none, "g1", "F", "U", 20, "pending"⟩]),
     ("g2", [⟨none, "g2", "U", "F", 20, "pending"⟩])] =
    [("F", ⟨0, [("g1", 20), ("g2", -20)]⟩)] := by
  have h1 : calculateAdvancedSettlements [⟨none, "g1", "F", "U", 20, "pending"⟩] =
      [⟨"F", "U", 20⟩] := by
    have hb : buildUserBalances [⟨none, "g1", "F", "U", 20, "pending"⟩] =
        [("F", 20), ("U", -20)] := by
      simp [buildUserBalances, updD]
    have hd : sortDesc (debtorsOf [("F", 20), ("U", -20)]) = [("F", 20)] := by
      norm_num [debtorsOf, sortDesc, insertDesc, eps, List.filterMap_cons]
    have hc : sortDesc (creditorsOf [("F", 20), ("U", -20)]) = [("U", 20)] := by
      norm_num [creditorsOf, sortDesc, insertDesc, eps, List.filterMap_cons]
    have hs : sweep [("F", 20)] [("U", 20)] = [⟨"F", "U", 20⟩] := by
      norm_num [sweep, eps, round2]
    simp only [calculateAdvancedSettlements]
    rw [hb, hd, hc, hs]
  have h2 : calculateAdvancedSettlements [⟨none, "g2", "U", "F", 20, "pending"⟩] =
      [⟨"U", "F", 20⟩] := by
    have hb : buildUserBalances [⟨none, "g2", "U", "F", 20, "pending"⟩] =
        [("U", 20), ("F", -20)] := by
      simp [buildUserBalances, updD]
    have hd : sortDesc (debtorsOf [("U", 20), ("F", -20)]) = [("U", 20)] := by
      norm_num [debtorsOf, sortDesc, insertDesc, eps, List.filterMap_cons]
    have hc : sortDesc (creditorsOf [("U", 20), ("F", -20)]) = [("F", 20)] := by
      norm_num [creditorsOf, sortDesc, insertDesc, eps, List.filterMap_cons]
    have hs : sweep [("U", 20)] [("F", 20)] = [⟨"U", "F", 20⟩] := by
      norm_num [sweep, eps, round2]
    simp only [calculateAdvancedSettlements]
    rw [hb, hd, hc, hs]
  simp only [aggregateFriendBalances, List.foldl_cons, List.foldl_nil]
  rw [h1, h2]
  simp only [List.foldl_cons, List.foldl_nil, processSettlement, updD]
  norm_num

/-- **C7**: in the cross-group friends-balance summary, every friend whose
aggregated balance magnitude is below `0.01` is absent from the result, and
the returned summary satisfies `totalOwedToYou` = sum of the positive returned
friend balances, `totalYouOwe` = sum of the absolute values of the negative
returned friend balances, and `netBalance = totalOwedToYou - totalYouOwe`. -/
theorem c7_friends_summary_totals (userId : String)
    (groups : List (String × List SettlementRecord)) :
    (∀ (f : String) (d : FriendData),
        (f, d) ∈ aggregateFriendBalances userId groups → |d.balance| < eps →
        f ∉ (getFriendsBalanceSummary userId groups).friendsBalance.map Prod.fst) ∧
    (getFriendsBalanceSummary userId groups).totalOwedToYou =
      (((getFriendsBalanceSummary userId groups).friendsBalance.map Prod.snd).filter
        (fun b => 0 < b)).sum ∧
    (getFriendsBalanceSummary userId groups).totalYouOwe =
      ((((getFriendsBalanceSummary userId groups).friendsBalance.map Prod.snd).filter
        (fun b => b < 0)).map (fun b => |b|)).sum ∧
    (getFriendsBalanceSummary userId groups).netBalance =
      (getFriendsBalanceSummary userId groups).totalOwedToYou -
      (getFriendsBalanceSummary userId groups).totalYouOwe := by
  by_cases hg : groups.isEmpty
  · refine ⟨fun f d _ _ => ?_, ?_, ?_, ?_⟩ <;> simp [getFriendsBalanceSummary, hg]
  · by_cases hk : ((aggregateFriendBalances userId groups).filter
        (fun p => eps < |p.2.balance|)).isEmpty
    · refine ⟨fun f d _ _ => ?_, ?_, ?_, ?_⟩ <;> simp [getFriendsBalanceSummary, hg, hk]
    · set fb := aggregateFriendBalances userId groups with hfb
      set kept := fb.filter (fun p => eps < |p.2.balance|) with hkept
      set T := kept.foldl
        (fun (t : ℚ × ℚ) p =>
          if 0 < p.2.balance then (t.1 + p.2.balance, t.2) else (t.1, t.2 + |p.2.balance|))
        (0, 0) with hT
      have hS : getFriendsBalanceSummary userId groups =
          ⟨kept.map (fun p => (p.1, round2 p.2.balance)),
           round2 T.1, round2 T.2, round2 (T.1 - T.2), kept.length, groups.length⟩ := by
        simp only [getFriendsBalanceSummary, hg, hk, if_false, Bool.false_eq_true,
          ← hfb, ← hkept, ← hT]
      have hTT : T = ((0 : ℚ) + ((kept.map (fun p => p.2.balance)).filter
            (fun b => 0 < b)).sum,
          (0 : ℚ) + (((kept.map (fun p => p.2.balance)).filter
            (fun b => ¬ 0 < b)).map (fun b => |b|)).sum) :=
        hT.trans (foldl_totals kept (0, 0))
      set vals := kept.map (fun p => p.2.balance) with hvals
      have hT1 : T.1 = (vals.filter (fun b => 0 < b)).sum := by
        rw [hTT]
        simp
      have hT2 : T.2 = ((vals.filter (fun b => ¬ 0 < b)).map (fun b => |b|)).sum := by
        rw [hTT]
        simp
      have hcent : ∀ p ∈ kept, IsCent p.2.balance := by
        intro p hp
        rw [hkept] at hp
        have hpf := List.mem_of_mem_filter hp
        rw [hfb] at hpf
        exact isCent_aggregateFriendBalances userId groups p hpf
      have hvals_cent : ∀ b ∈ vals, IsCent b := by
        intro b hb
        rw [hvals] at hb
        obtain ⟨p, hp, hpb⟩ := List.mem_map.mp hb
        rw [← hpb]
        exact hcent p hp
      have hvals_ne : ∀ b ∈ vals, b ≠ 0 := by
        intro b hb hb0
        rw [hvals] at hb
        obtain ⟨p, hp, hpb⟩ := List.mem_map.mp hb
        rw [hkept] at hp
        have hpred := (List.mem_filter.mp hp).2
        rw [decide_eq_true_eq] at hpred
        rw [hpb, hb0] at hpred
        norm_num [eps] at hpred
      have hT1cent : IsCent T.1 := by
        rw [hT1]
        exact isCent_sum (fun q hq => hvals_cent q (List.mem_of_mem_filter hq))
      have hT2cent : IsCent T.2 := by
        rw [hT2]
        refine isCent_sum ?_
        intro q hq
        obtain ⟨b, hb, hbq⟩ := List.mem_map.mp hq
        rw [← hbq]
        exact isCent_abs (hvals_cent b (List.mem_of_mem_filter hb))
      have hfbvals : (kept.map (fun p => (p.1, round2 p.2.balance))).map Prod.snd = vals := by
        rw [List.map_map, hvals]
        refine List.map_congr_left ?_
        intro p hp
        simp only [Function.comp_apply]
        exact round2_eq_self_of_isCent (hcent p hp)
      have hfilters : vals.filter (fun b => ¬ 0 < b) = vals.filter (fun b => b < 0) := by
        refine List.filter_congr ?_
        intro b hb
        have hne := hvals_ne b hb
        simp only [decide_eq_decide]
        constructor
        · intro h
          exact lt_of_le_of_ne (not_lt.mp h) hne
        · intro h
          exact not_lt.mpr h.le
      refine ⟨?_, ?_, ?_, ?_⟩
      · intro f d hmem hlt hin
        rw [hS] at hin
        simp only [List.map_map] at hin
        obtain ⟨p, hp, hpf⟩ := List.mem_map.mp hin
        simp only [Function.comp_apply] at hpf
        rw [hkept] at hp
        obtain ⟨hpfb, hppred⟩ := List.mem_filter.mp hp
        rw [decide_eq_true_eq] at hppred
        have hfp : (f, p.2) ∈ fb := by
          rw [← hpf]
          exact hpfb
        have hnd : (keysOf fb).Nodup := by
          rw [hfb]
          exact nodup_keysOf_aggregateFriendBalances userId groups
        have hpd : p.2 = d := value_eq_of_mem_of_nodup hnd hfp hmem
        rw [hpd] at hppred
        exact absurd hppred (not_lt.mpr hlt.le)
      · rw [hS]
        simp only
        rw [hfbvals, hT1]
        exact round2_eq_self_of_isCent (hT1 ▸ hT1cent)
      · rw [hS]
        simp only
        rw [hfbvals, ← hfilters, hT2]
        exact round2_eq_self_of_isCent (hT2 ▸ hT2cent)
      · rw [hS]
        simp only
        rw [round2_eq_self_of_isCent (isCent_sub hT1cent hT2cent),
          round2_eq_self_of_isCent hT1cent, round2_eq_self_of_isCent hT2cent]

/-- Witness for `c7_friends_summary_totals`: friend `F` aggregates to exactly
`0` across the two demo groups and is dropped from the summary. -/
theorem c7_friends_summary_totals_witness :
    ("F" : String) ∉ (getFriendsBalanceSummary "U"
      [("g1", [⟨none, "g1", "F", "U", 20, "pending"⟩]),
       ("g2", [⟨none, "g2", "U", "F", 20, "pending"⟩])]).friendsBalance.map Prod.fst :=
  (c7_friends_summary_totals "U"
      [("g1", [⟨none, "g1", "F", "U", 20, "pending"⟩]),
       ("g2", [⟨none, "g2", "U", "F", 20, "pending"⟩])]).1
    "F" ⟨0, [("g1", 20), ("g2", -20)]⟩
    (by simp [aggDemo_eval]) (by simp [abs_zero, eps_pos])

end Splitwiser
